import Mathlib

/-!
Verification of the BSM audit-trail parser (`bsm.go`) against its
natural-language specification.

The Go source is shallowly embedded: byte slices become `List Byte`
(`Byte := Fin 256`), machine-integer arithmetic carries the explicit
`% 2^32` / `% 2^16` reductions of the Go `uint32`/`uint16` operations,
and fallible functions return `Except GoErr`.  Runtime slice-bounds
panics of Go are modelled as the explicit error value `GoErr.slicePanic`.
-/

/-- A Go `byte`. -/
abbrev Byte := Fin 256

/-- Errors produced by the embedded Go code.  Each constructor stands for
one distinct `errors.New` / `fmt.Errorf` site (or a runtime panic) in the
source. -/
inductive GoErr where
  /-- "more than four bytes given -> risk of overflow" in `bytesToUint32`. -/
  | overflow32 : GoErr
  /-- "more than two bytes given -> risk of overflow" in `bytesToUint16`. -/
  | overflow16 : GoErr
  /-- "can't determine the size of the given token (type): 0x%x". -/
  | unknownToken (b : Byte) : GoErr
  /-- "invalid value (%d) for ... field in ..." for the token whose tag is given. -/
  | invalidDiscriminator (tag : Byte) (val : Nat) : GoErr
  /-- "invalid length of 32bit header token". -/
  | invalidHeaderLength : GoErr
  /-- "token ID mismatch". -/
  | tokenIDMismatch : GoErr
  /-- "new token ID found: 0x%x" in the decoder switch of `TokenFromByteInput`. -/
  | newTokenID (b : Byte) : GoErr
  /-- `io.EOF` surfaced by a read from the byte source. -/
  | eof : GoErr
  /-- "read n bytes, but wanted exactly m". -/
  | shortRead (n wanted : Nat) : GoErr
  /-- Go runtime panic: slice bounds out of range. -/
  | slicePanic : GoErr
  deriving DecidableEq, Repr

/-- The big-endian integer encoded by a byte list (unbounded mathematical
value; the reference value the helpers are compared against). -/
def beNat (l : List Byte) : Nat :=
  l.foldl (fun acc b => acc * 256 + b.val) 0

/-- The Go slice expression `l[lo:hi]`. -/
def goSlice (l : List Byte) (lo hi : Nat) : List Byte :=
  (l.take hi).drop lo

/-- Overwrite `buffer` starting at index `idx` with the bytes of `chunk`
(the effect of Go's `Read(buffer[idx:...])` returning `chunk.length` bytes). -/
def writeAt (buffer : List Byte) (idx : Nat) (chunk : List Byte) : List Byte :=
  buffer.take idx ++ chunk ++ buffer.drop (idx + chunk.length)

/-- The loop body of `bytesToUint32`: Go `uint32` arithmetic, so every
addition and multiplication is reduced `% 2^32`.  The exponent
`len(input) - i - 1` of the Go loop equals the length of the remaining
list at each step. -/
def u32go : Nat → List Byte → Nat
  | r, [] => r
  | r, b :: rest =>
    u32go ((r + b.val * (256 ^ rest.length % 4294967296) % 4294967296) % 4294967296) rest

/-- `bytesToUint32` from `bsm.go`: rejects inputs longer than four bytes,
otherwise folds the bytes big-endian in `uint32` arithmetic. -/
def bytesToUint32 (input : List Byte) : Except GoErr Nat :=
  if 4 < input.length then .error .overflow32
  else .ok (u32go 0 input)

/-- The loop body of `bytesToUint16` (`uint16` arithmetic). -/
def u16go : Nat → List Byte → Nat
  | r, [] => r
  | r, b :: rest =>
    u16go ((r + b.val * (256 ^ rest.length % 65536) % 65536) % 65536) rest

/-- `bytesToUint16` from `bsm.go`. -/
def bytesToUint16 (input : List Byte) : Except GoErr Nat :=
  if 2 < input.length then .error .overflow16
  else .ok (u16go 0 input)

/-- `HeaderToken32bit` from `bsm.go` (tag 0x14). -/
structure HeaderToken32bit where
  TokenID : Byte
  RecordByteCount : Nat
  VersionNumber : Byte
  EventType : Nat
  EventModifier : Nat
  Seconds : Nat
  NanoSeconds : Nat
  deriving DecidableEq, Repr

/-- `IPortToken` from `bsm.go` (tag 0x2c). -/
structure IPortToken where
  TokenID : Byte
  PortNumber : Nat
  deriving DecidableEq, Repr

/-- `TrailerToken` from `bsm.go` (tag 0x13); the field name keeps the
source's spelling. -/
structure TrailerToken where
  TokenID : Byte
  TrailerMagic : Nat
  RecordByteCoount : Nat
  deriving DecidableEq, Repr

/-- The named return values `(size, moreBytes, err)` of `determineTokenSize`. -/
structure SizeResult where
  size : Nat
  moreBytes : Nat
  err : Option GoErr
  deriving DecidableEq, Repr

/-- `determineTokenSize` from `bsm.go`: the size oracle.  One branch per
`case` of the Go `switch`, in source order; the `default` branch is the
unknown-token error. -/
def determineTokenSize (input : List Byte) : SizeResult :=
  if input.length = 0 then ⟨0, 1, none⟩
  else
    let b := input.getD 0 0
    if b = 0x11 then -- file token -> variable length
      if input.length < 1 + 4 + 4 + 2 then ⟨0, (1 + 4 + 4 + 2) - input.length, none⟩
      else
        match bytesToUint16 (goSlice input 9 11) with
        | .error e => ⟨0, 0, some e⟩
        | .ok fileNameLength => ⟨1 + 4 + 4 + 2 + fileNameLength + 1, 0, none⟩
    else if b = 0x13 then ⟨1 + 2 + 4, 0, none⟩ -- trailer token
    else if b = 0x14 then ⟨1 + 4 + 1 + 2 + 2 + 4 + 4, 0, none⟩ -- 32 bit header token
    else if b = 0x15 then -- expanded 32 bit header token
      if input.length < 15 then ⟨0, 15 - input.length, none⟩
      else
        match bytesToUint32 (goSlice input 10 14) with
        | .error e => ⟨0, 0, some e⟩
        | .ok addrlen =>
          if addrlen = 4 then ⟨1 + 4 + 1 + 2 + 2 + 4 + 4 + 4 + 4, 0, none⟩
          else if addrlen = 16 then ⟨1 + 4 + 1 + 2 + 2 + 4 + 16 + 4 + 4, 0, none⟩
          else ⟨0, 0, some (.invalidDiscriminator 0x15 addrlen)⟩
    else if b = 0x21 then -- arbitrary data token
      if input.length < 4 then ⟨0, 4 - input.length, none⟩
      else ⟨1 + 1 + 1 + 1 + (input.getD 2 0).val * (input.getD 3 0).val, 0, none⟩
    else if b = 0x22 then ⟨1 + 1 + 4, 0, none⟩ -- System V IPC token
    else if b = 0x23 then -- path token
      if input.length < 3 then ⟨0, 3 - input.length, none⟩
      else
        match bytesToUint16 (goSlice input 1 3) with
        | .error e => ⟨0, 0, some e⟩
        | .ok count => ⟨1 + 2 + count + 1, 0, none⟩
    else if b = 0x24 then ⟨1 + 4 + 4 + 4 + 4 + 4 + 4 + 4 + 4 + 4, 0, none⟩ -- 32 bit subject
    else if b = 0x25 then -- path attr token
      if input.length < 3 then ⟨0, 3 - input.length, none⟩
      else
        match bytesToUint16 (goSlice input 1 3) with
        | .error e => ⟨0, 0, some e⟩
        | .ok strCount =>
          if (input.drop 3).count 0 < strCount then ⟨0, 1, none⟩
          else ⟨input.length, 0, none⟩
    else if b = 0x26 then ⟨1 + 4 + 4 + 4 + 4 + 4 + 4 + 4 + 4 + 4, 0, none⟩ -- 32bit process
    else if b = 0x27 then ⟨1 + 1 + 4, 0, none⟩ -- 32 bit return token
    else if b = 0x28 then -- text token
      if input.length < 3 then ⟨0, 3 - input.length, none⟩
      else
        match bytesToUint16 (goSlice input 1 3) with
        | .error e => ⟨0, 0, some e⟩
        | .ok count => ⟨1 + 2 + count + 1, 0, none⟩
    else if b = 0x2a then ⟨1 + 4, 0, none⟩ -- in_addr token
    else if b = 0x2b then ⟨1 + 1 + 1 + 2 + 2 + 2 + 1 + 1 + 2 + 4 + 4, 0, none⟩ -- ip token
    else if b = 0x2c then ⟨1 + 2, 0, none⟩ -- iport token
    else if b = 0x2d then -- 32bit arg token
      if input.length < 8 then ⟨0, 8 - input.length, none⟩
      else
        match bytesToUint16 (goSlice input 6 8) with
        | .error e => ⟨0, 0, some e⟩
        | .ok strlen => ⟨1 + 1 + 4 + 2 + strlen + 1, 0, none⟩
    else if b = 0x2e then ⟨1 + 2 + 2 + 4, 0, none⟩ -- socket token
    else if b = 0x2f then ⟨1 + 4, 0, none⟩ -- seq token
    else if b = 0x32 then ⟨1 + 4 + 4 + 4 + 4 + 4 + 4 + 4, 0, none⟩ -- SysV IPC permission
    else if b = 0x34 then -- groups token
      if input.length < 3 then ⟨0, 3 - input.length, none⟩
      else
        match bytesToUint16 (goSlice input 1 3) with
        | .error e => ⟨0, 0, some e⟩
        | .ok count => ⟨1 + 2 + count * 4, 0, none⟩
    else if b = 0x3c then -- exec args token
      if input.length < 5 then ⟨0, 5 - input.length, none⟩
      else
        match bytesToUint32 (goSlice input 1 5) with
        | .error e => ⟨0, 0, some e⟩
        | .ok strCount =>
          if (input.drop 5).count 0 < strCount then ⟨0, 1, none⟩
          else ⟨input.length, 0, none⟩
    else if b = 0x3d then -- exec env token
      if input.length < 5 then ⟨0, 5 - input.length, none⟩
      else
        match bytesToUint32 (goSlice input 1 5) with
        | .error e => ⟨0, 0, some e⟩
        | .ok strCount =>
          if (input.drop 5).count 0 < strCount then ⟨0, 1, none⟩
          else ⟨input.length, 0, none⟩
    else if b = 0x3e then ⟨1 + 1 + 4 + 4 + 4 + 8 + 4, 0, none⟩ -- 32bit attribute token
    else if b = 0x52 then ⟨1 + 4 + 4, 0, none⟩ -- exit token
    else if b = 0x60 then -- zone name token
      if input.length < 3 then ⟨0, 3 - input.length, none⟩
      else
        match bytesToUint16 (goSlice input 1 3) with
        | .error e => ⟨0, 0, some e⟩
        | .ok strlen => ⟨1 + 2 + strlen + 1, 0, none⟩
    else if b = 0x71 then -- 64 bit arg token
      if input.length < 12 then ⟨0, 12 - input.length, none⟩
      else
        match bytesToUint16 (goSlice input 10 12) with
        | .error e => ⟨0, 0, some e⟩
        | .ok strlen => ⟨1 + 1 + 8 + 2 + strlen + 1, 0, none⟩
    else if b = 0x72 then ⟨1 + 1 + 8, 0, none⟩ -- 64 bit return token
    else if b = 0x73 then ⟨1 + 1 + 4 + 4 + 4 + 8 + 8, 0, none⟩ -- 64 bit attribute token
    else if b = 0x74 then ⟨1 + 4 + 1 + 2 + 2 + 8 + 8, 0, none⟩ -- 64 bit header token
    else if b = 0x75 then ⟨1 + 4 + 4 + 4 + 4 + 4 + 4 + 4 + 8 + 4, 0, none⟩ -- 64 bit subject
    else if b = 0x77 then ⟨1 + 4 + 4 + 4 + 4 + 4 + 4 + 4 + 8 + 8, 0, none⟩ -- 64 bit process
    else if b = 0x79 then -- 64 bit expanded header token
      if input.length < 15 then ⟨0, 15 - input.length, none⟩
      else
        match bytesToUint32 (goSlice input 10 14) with
        | .error e => ⟨0, 0, some e⟩
        | .ok addrlen =>
          if addrlen = 4 then ⟨1 + 4 + 2 + 2 + 2 + 4 + 4 + 8 + 8, 0, none⟩
          else if addrlen = 16 then ⟨1 + 4 + 2 + 2 + 2 + 4 + 16 + 8 + 8, 0, none⟩
          else ⟨0, 0, some (.invalidDiscriminator 0x79 addrlen)⟩
    else if b = 0x7a then -- expanded 32bit subject token
      if input.length < 34 then ⟨0, 34 - input.length, none⟩
      else
        let addrlen := input.getD 33 0
        if addrlen = 4 then ⟨1 + 4 + 4 + 4 + 4 + 4 + 4 + 4 + 4 + 1 + 4, 0, none⟩
        else if addrlen = 16 then ⟨1 + 4 + 4 + 4 + 4 + 4 + 4 + 4 + 4 + 1 + 16, 0, none⟩
        else ⟨0, 0, some (.invalidDiscriminator 0x7a addrlen.val)⟩
    else if b = 0x7c then -- expanded 64bit subject token
      if input.length < 38 then ⟨0, 38 - input.length, none⟩
      else
        let addrlen := input.getD 37 0
        if addrlen = 4 then ⟨1 + 4 + 4 + 4 + 4 + 4 + 4 + 4 + 8 + 1 + 4, 0, none⟩
        else if addrlen = 16 then ⟨1 + 4 + 4 + 4 + 4 + 4 + 4 + 4 + 8 + 1 + 16, 0, none⟩
        else ⟨0, 0, some (.invalidDiscriminator 0x7c addrlen.val)⟩
    else if b = 0x7e then ⟨1 + 1 + 16, 0, none⟩ -- expanded in_addr token
    else if b = 0x7f then -- expanded socket token
      if input.length < 7 then ⟨0, 7 - input.length, none⟩
      else
        match bytesToUint16 (goSlice input 5 7) with
        | .error e => ⟨0, 0, some e⟩
        | .ok addrlen =>
          if addrlen = 4 then ⟨1 + 2 + 2 + 2 + 2 + 4 + 2 + 4, 0, none⟩
          else if addrlen = 16 then ⟨1 + 2 + 2 + 2 + 2 + 16 + 2 + 16, 0, none⟩
          else ⟨0, 0, some (.invalidDiscriminator 0x7f addrlen)⟩
    else ⟨0, 0, some (.unknownToken b)⟩

/-- `ParseHeaderToken32bit` from `bsm.go`: fixed 18-byte layout with tag
0x14, fields read big-endian in source order. -/
def ParseHeaderToken32bit (input : List Byte) : Except GoErr HeaderToken32bit :=
  if input.length ≠ 18 then .error .invalidHeaderLength
  else if input.getD 0 0 ≠ 0x14 then .error .tokenIDMismatch
  else
    match bytesToUint32 (goSlice input 1 5) with
    | .error e => .error e
    | .ok rbc =>
      match bytesToUint16 (goSlice input 6 8) with
      | .error e => .error e
      | .ok et =>
        match bytesToUint16 (goSlice input 8 10) with
        | .error e => .error e
        | .ok em =>
          match bytesToUint32 (goSlice input 10 14) with
          | .error e => .error e
          | .ok secs =>
            match bytesToUint32 (goSlice input 14 18) with
            | .error e => .error e
            | .ok nsecs =>
              .ok { TokenID := input.getD 0 0
                    RecordByteCount := rbc
                    VersionNumber := input.getD 5 0
                    EventType := et
                    EventModifier := em
                    Seconds := secs
                    NanoSeconds := nsecs }

/-- The tokens the decoder switch of `TokenFromByteInput` can actually
produce: only the 32-bit header (0x14) and iport (0x2c) variants have
decoder arms in the source. -/
inductive Token where
  | header32 (t : HeaderToken32bit) : Token
  | iport (t : IPortToken) : Token
  deriving DecidableEq, Repr

/-- The `for increase > 0` read loop of `TokenFromByteInput`.  The byte
source is the list `src`, read with the semantics of
`bytes.Buffer.Read`: a request for `k > 0` bytes returns
`min k src.length` bytes, or `io.EOF` when the source is exhausted.
The Go slice expression `tokenBuffer[bufidx : bufidx+increase]` panics
when its upper bound exceeds the buffer capacity; that panic is the
`slicePanic` error.  Note the loop updates `increase` only when the read
returned a different count (`if n != increase`), exactly as the source
does. -/
def readLoop (buffer : List Byte) (bufidx increase : Nat) (src : List Byte) :
    Except GoErr (List Byte × Nat × List Byte) :=
  if increase = 0 then .ok (buffer, bufidx, src)
  else if buffer.length < bufidx + increase then .error .slicePanic
  else if min increase src.length = 0 then .error .eof
  else
    readLoop (writeAt buffer bufidx (src.take (min increase src.length)))
      (bufidx + min increase src.length)
      (if min increase src.length ≠ increase then increase - min increase src.length
       else increase)
      (src.drop (min increase src.length))
termination_by buffer.length - bufidx
decreasing_by
  simp only [writeAt, List.length_append, List.length_take, List.length_drop]
  omega

/-- The decoder switch at the end of `TokenFromByteInput`: only tags 0x14
and 0x2c have arms; everything else is the "new token ID found" error. -/
def decodeToken (tokenBuffer : List Byte) : Except GoErr Token :=
  if tokenBuffer.getD 0 0 = 0x14 then
    match ParseHeaderToken32bit tokenBuffer with
    | .error e => .error e
    | .ok t => .ok (.header32 t)
  else if tokenBuffer.getD 0 0 = 0x2c then
    match bytesToUint16 (goSlice tokenBuffer 1 3) with
    | .error e => .error e
    | .ok port => .ok (.iport { TokenID := tokenBuffer.getD 0 0, PortNumber := port })
  else .error (.newTokenID (tokenBuffer.getD 0 0))

/-- The tail of `TokenFromByteInput` after the size loop: allocate a
buffer of `buflen` bytes, copy what was read so far, read the remainder
`tokenBuffer[bufidx:buflen]` (a panic when `buflen < bufidx`), and hand
the buffer to the decoder switch. -/
def processBuffer (buflen : Nat) (buffer : List Byte) (bufidx : Nat) (src : List Byte) :
    Except GoErr Token :=
  let tokenBuffer := buffer.take buflen ++ List.replicate (buflen - buffer.length) 0
  if buflen < bufidx then .error .slicePanic
  else if buflen - bufidx = 0 then decodeToken tokenBuffer
  else if src.length = 0 then .error .eof
  else if min (buflen - bufidx) src.length ≠ buflen - bufidx then
    .error (.shortRead (min (buflen - bufidx) src.length) (buflen - bufidx))
  else decodeToken (writeAt tokenBuffer bufidx (src.take (buflen - bufidx)))

/-- `TokenFromByteInput` from `bsm.go`, over a pure byte source: read the
tag byte, ask the size oracle, run the read loop when it asked for more
bytes, ask the oracle once more (its error and `moreBytes` results are
discarded, as in the source), then buffer and decode. -/
def TokenFromByteInput (src : List Byte) : Except GoErr Token :=
  match src with
  | [] => .error .eof
  | b :: rest =>
    match (determineTokenSize [b]).err with
    | some e => .error e
    | none =>
      if (determineTokenSize [b]).moreBytes ≠ 0 then
        match readLoop (b :: List.replicate (determineTokenSize [b]).moreBytes 0) 1
            (determineTokenSize [b]).moreBytes rest with
        | .error e => .error e
        | .ok (buffer2, bufidx2, src2) =>
          processBuffer (determineTokenSize buffer2).size buffer2 bufidx2 src2
      else
        processBuffer (determineTokenSize [b]).size [b] 1 rest

/-- Modelled from the spec: the record-level token alphabet for the
record assembler.  The assembler (`ReadBsmRecord` / `read_record`) is
absent from the source (only its tests and the `TrailerToken`
declaration exist), so records are modelled over already-decoded tokens:
a header, a trailer, or any other token identified by its tag. -/
inductive BsmToken where
  | header32 (h : HeaderToken32bit) : BsmToken
  | trailer (t : TrailerToken) : BsmToken
  | other (tag : Byte) : BsmToken
  deriving DecidableEq, Repr

/-- Modelled from the spec: record-level errors of the record assembler
(spec section 4.5 and section 7), which is absent from the source. -/
inductive RecordErr where
  | notAHeader : RecordErr
  | unexpectedEnd : RecordErr
  | trailerMismatch : RecordErr
  deriving DecidableEq, Repr

/-- Modelled from the spec: a record value - header, intermediate tokens,
trailer (spec section 4.5); absent from the source, whose tests use the
field name `Tokens`. -/
structure BsmRecord where
  Header : HeaderToken32bit
  Tokens : List BsmToken
  Trailer : TrailerToken
  deriving DecidableEq, Repr

/-- Modelled from the spec: the token-collecting loop of the record
assembler, absent from the source.  Reads tokens into an ordered list
until a trailer arrives, then verifies (a) the trailer magic equals
0xB105 and (b) the trailer's record byte count equals the header's;
a violation is the record-level `trailerMismatch` error. -/
def assembleRecord (h : HeaderToken32bit) (acc : List BsmToken) :
    List BsmToken → Except RecordErr BsmRecord
  | [] => .error .unexpectedEnd
  | .trailer t :: _ =>
    if t.TrailerMagic = 0xb105 ∧ t.RecordByteCoount = h.RecordByteCount then
      .ok ⟨h, acc, t⟩
    else .error .trailerMismatch
  | tok :: rest => assembleRecord h (acc ++ [tok]) rest

/-- Modelled from the spec: `ReadBsmRecord` (`read_record`), absent from
the source; per spec section 4.5 it requires the first token to be a
header (the 32-bit header is the only header variant the source can
parse), then collects tokens until the trailer and validates it. -/
def ReadBsmRecord (toks : List BsmToken) : Except RecordErr BsmRecord :=
  match toks with
  | .header32 h :: rest => assembleRecord h [] rest
  | _ => .error .notAHeader

/-- The four-byte big-endian encoding of an integer. -/
def uint32BE (n : Nat) : List Byte :=
  [Fin.ofNat (n / 16777216), Fin.ofNat (n / 65536), Fin.ofNat (n / 256), Fin.ofNat n]

/-- The 18 bytes of spec scenario S1: a 32-bit header token. -/
def s1Input : List Byte :=
  [0x14, 0x00, 0x00, 0x00, 0x38, 0x0b, 0xc8, 0x00, 0x00, 0x5a,
   0x9a, 0xc2, 0xe6, 0x00, 0x00, 0x03, 0x01, 0x28]

/-- A well-formed trailer token (magic 0xB105, record byte count 56), the
closing token of the repository's own small example record. -/
def trailerBytes : List Byte :=
  [0x13, 0xb1, 0x05, 0x00, 0x00, 0x00, 0x38]

/-- The text token `auditd::Audit startup` from the repository's own
small example record (tag 0x28, declared string length 22). -/
def textTokenBytes : List Byte :=
  [0x28, 0x00, 0x16,
   0x61, 0x75, 0x64, 0x69, 0x74, 0x64, 0x3a, 0x3a,
   0x41, 0x75, 0x64, 0x69, 0x74, 0x20, 0x73, 0x74,
   0x61, 0x72, 0x74, 0x75, 0x70, 0x00]

/-- The 41-byte expanded 32-bit process token (tag 0x7b) from the
repository's own test, with the 4-byte address-type field holding 4 and
a 4-byte address. -/
def expProc32Bytes : List Byte :=
  [0x7b,
   0x00, 0x01, 0x02, 0x03, 0x00, 0x01, 0x02, 0x03,
   0x00, 0x01, 0x02, 0x03, 0x00, 0x01, 0x02, 0x03,
   0x00, 0x01, 0x02, 0x03, 0x00, 0x01, 0x02, 0x03,
   0x00, 0x01, 0x02, 0x03, 0x00, 0x01, 0x02, 0x03,
   0x00, 0x00, 0x00, 0x04,
   0x00, 0x01, 0x02, 0x03]

/-- A 34-byte tag-0x7a prefix whose byte at offset 33 (the
terminal-address-length discriminator) holds 4. -/
def expSubj32Pfx : List Byte :=
  [0x7a,
   0x00, 0x01, 0x02, 0x03, 0x00, 0x01, 0x02, 0x03,
   0x00, 0x01, 0x02, 0x03, 0x00, 0x01, 0x02, 0x03,
   0x00, 0x01, 0x02, 0x03, 0x00, 0x01, 0x02, 0x03,
   0x00, 0x01, 0x02, 0x03, 0x00, 0x01, 0x02, 0x03,
   0x04]

/-- The tag-0x7a prefix extended with a 4-byte IPv4 address: the full
token as the oracle sizes it. -/
def expSubj32Tok : List Byte :=
  expSubj32Pfx ++ [0x00, 0x01, 0x02, 0x03]

/-! ## Helper lemmas -/

/-- On at most four bytes the `uint32` fold never wraps and computes the
big-endian value. -/
theorem u32go_eq (l : List Byte) (h : l.length ≤ 4) : u32go 0 l = beNat l := by
  match l with
  | [] => rfl
  | [a] =>
    rcases a with ⟨a, ha⟩
    norm_num [u32go, beNat]
    omega
  | [a, b] =>
    rcases a with ⟨a, ha⟩; rcases b with ⟨b, hb⟩
    norm_num [u32go, beNat]
    omega
  | [a, b, c] =>
    rcases a with ⟨a, ha⟩; rcases b with ⟨b, hb⟩; rcases c with ⟨c, hc⟩
    norm_num [u32go, beNat]
    omega
  | [a, b, c, d] =>
    rcases a with ⟨a, ha⟩; rcases b with ⟨b, hb⟩; rcases c with ⟨c, hc⟩
    rcases d with ⟨d, hd⟩
    norm_num [u32go, beNat]
    omega
  | _ :: _ :: _ :: _ :: _ :: _ => simp at h

/-- On at most two bytes the `uint16` fold never wraps and computes the
big-endian value. -/
theorem u16go_eq (l : List Byte) (h : l.length ≤ 2) : u16go 0 l = beNat l := by
  match l with
  | [] => rfl
  | [a] =>
    rcases a with ⟨a, ha⟩
    norm_num [u16go, beNat]
    omega
  | [a, b] =>
    rcases a with ⟨a, ha⟩; rcases b with ⟨b, hb⟩
    norm_num [u16go, beNat]
    omega
  | _ :: _ :: _ :: _ => simp at h

/-- `bytesToUint32` succeeds with the big-endian value on inputs of at
most four bytes. -/
theorem u32ok (l : List Byte) (h : l.length ≤ 4) : bytesToUint32 l = .ok (beNat l) := by
  rw [bytesToUint32, if_neg (by omega), u32go_eq l h]

/-- `bytesToUint16` succeeds with the big-endian value on inputs of at
most two bytes. -/
theorem u16ok (l : List Byte) (h : l.length ≤ 2) : bytesToUint16 l = .ok (beNat l) := by
  rw [bytesToUint16, if_neg (by omega), u16go_eq l h]

/-- Decoding the four-byte big-endian encoding of `n < 2^32` gives `n` back. -/
theorem beNat_uint32BE (n : Nat) (h : n < 4294967296) : beNat (uint32BE n) = n := by
  simp [beNat, uint32BE, Fin.ofNat]
  omega

/-- Length of a Go slice of a list. -/
theorem goSlice_length (l : List Byte) (lo hi : Nat) :
    (goSlice l lo hi).length = min hi l.length - lo := by
  simp [goSlice]

/-- On every 18-byte input whose first byte is 0x14,
`ParseHeaderToken32bit` succeeds and every field is the big-endian value
of the bytes at its layout offset. -/
theorem parseHeader_ok (input : List Byte) (hlen : input.length = 18)
    (hhd : input.getD 0 0 = 0x14) :
    ParseHeaderToken32bit input = .ok
      { TokenID := 0x14
        RecordByteCount := beNat (goSlice input 1 5)
        VersionNumber := input.getD 5 0
        EventType := beNat (goSlice input 6 8)
        EventModifier := beNat (goSlice input 8 10)
        Seconds := beNat (goSlice input 10 14)
        NanoSeconds := beNat (goSlice input 14 18) } := by
  have h1 : bytesToUint32 (goSlice input 1 5) = .ok (beNat (goSlice input 1 5)) :=
    u32ok _ (by rw [goSlice_length, hlen]; omega)
  have h2 : bytesToUint16 (goSlice input 6 8) = .ok (beNat (goSlice input 6 8)) :=
    u16ok _ (by rw [goSlice_length, hlen]; omega)
  have h3 : bytesToUint16 (goSlice input 8 10) = .ok (beNat (goSlice input 8 10)) :=
    u16ok _ (by rw [goSlice_length, hlen]; omega)
  have h4 : bytesToUint32 (goSlice input 10 14) = .ok (beNat (goSlice input 10 14)) :=
    u32ok _ (by rw [goSlice_length, hlen]; omega)
  have h5 : bytesToUint32 (goSlice input 14 18) = .ok (beNat (goSlice input 14 18)) :=
    u32ok _ (by rw [goSlice_length, hlen]; omega)
  have h0 : input.get ⟨0, by omega⟩ = (0x14 : Byte) := by
    rw [List.getD_eq_getElem _ _ (by omega)] at hhd
    exact hhd
  simp only [List.get_eq_getElem] at h0
  simp [ParseHeaderToken32bit, hlen, hhd, h0, h1, h2, h3, h4, h5]

/-- Length of `writeAt` in terms of its arguments. -/
theorem writeAt_length (buffer : List Byte) (idx : Nat) (chunk : List Byte) :
    (writeAt buffer idx chunk).length =
      min idx buffer.length + chunk.length + (buffer.length - (idx + chunk.length)) := by
  simp [writeAt]
  omega

/-- When the size loop of `TokenFromByteInput` is entered with a source
holding at least the requested `increase` bytes and a buffer of exactly
`bufidx + increase` bytes (the way `TokenFromByteInput` always enters
it), the first read returns exactly `increase` bytes, so the loop never
decrements `increase`, and the second iteration slices the buffer out of
range: the loop always ends in the slice-bounds panic. -/
theorem readLoopExact (buffer : List Byte) (bufidx increase : Nat) (src : List Byte)
    (h0 : increase ≠ 0) (hlen : buffer.length = bufidx + increase)
    (hsrc : increase ≤ src.length) :
    readLoop buffer bufidx increase src = .error .slicePanic := by
  have hmin : min increase src.length = increase := Nat.min_eq_left hsrc
  rw [readLoop, if_neg h0, if_neg (by omega), if_neg (by omega)]
  rw [hmin]
  simp only [ne_eq, not_true_eq_false, if_false]
  rw [readLoop, if_neg h0, if_pos]
  rw [writeAt_length, List.length_take, hmin]
  omega

/-- The token-collecting loop of the record assembler, characterised:
with a trailer-free middle, it reaches the trailer and its result is
decided exactly by the magic and byte-count checks. -/
theorem assembleRecord_spec (h : HeaderToken32bit) (t : TrailerToken) :
    ∀ (mid acc : List BsmToken), (∀ x ∈ mid, ∀ tt, x ≠ BsmToken.trailer tt) →
    assembleRecord h acc (mid ++ [BsmToken.trailer t]) =
      if t.TrailerMagic = 0xb105 ∧ t.RecordByteCoount = h.RecordByteCount then
        .ok ⟨h, acc ++ mid, t⟩
      else .error .trailerMismatch := by
  intro mid
  induction mid with
  | nil =>
    intro acc _
    simp [assembleRecord]
  | cons x xs ih =>
    intro acc hmid
    cases x with
    | trailer tt => exact absurd rfl (hmid _ (by simp) tt)
    | header32 hh =>
      rw [List.cons_append]
      rw [show assembleRecord h acc (BsmToken.header32 hh :: (xs ++ [BsmToken.trailer t]))
            = assembleRecord h (acc ++ [BsmToken.header32 hh]) (xs ++ [BsmToken.trailer t])
          from rfl]
      rw [ih _ (fun x hx => hmid x (by simp [hx]))]
      simp
    | other tag =>
      rw [List.cons_append]
      rw [show assembleRecord h acc (BsmToken.other tag :: (xs ++ [BsmToken.trailer t]))
            = assembleRecord h (acc ++ [BsmToken.other tag]) (xs ++ [BsmToken.trailer t])
          from rfl]
      rw [ih _ (fun x hx => hmid x (by simp [hx]))]
      simp

/-- Whenever the size oracle answers the lone tag byte with a request for
`k` more bytes (no error) and the source still holds at least `k` bytes,
`TokenFromByteInput` ends in the slice-bounds panic of its read loop. -/
theorem tokenFrom_panic (b : Byte) (rest : List Byte)
    (h1 : (determineTokenSize [b]).err = none)
    (h2 : (determineTokenSize [b]).moreBytes ≠ 0)
    (h3 : (determineTokenSize [b]).moreBytes ≤ rest.length) :
    TokenFromByteInput (b :: rest) = .error .slicePanic := by
  have hl : readLoop (b :: List.replicate (determineTokenSize [b]).moreBytes 0) 1
      (determineTokenSize [b]).moreBytes rest = .error .slicePanic :=
    readLoopExact _ _ _ _ h2 (by simp; omega) h3
  simp only [TokenFromByteInput]
  rw [h1]
  simp only [if_pos h2, hl]

/-! ## Claims -/

/-- C1: On the 18-byte S1 input `14 00 00 00 38 0B C8 00 00 5A 9A C2 E6
00 00 03 01 28`, `ParseHeaderToken32bit` succeeds with TokenID 0x14,
RecordByteCount 56, VersionNumber 0x0B, EventType 0xC800, EventModifier
0x005A, Seconds 2596464128 and NanoSeconds 196904; and in general, on
every 18-byte input whose first byte is 0x14, every field equals the
big-endian value of the bytes at its layout offset. -/
theorem claimC1 :
    (∀ input : List Byte, input.length = 18 → input.getD 0 0 = 0x14 →
      ParseHeaderToken32bit input = .ok
        { TokenID := 0x14
          RecordByteCount := beNat (goSlice input 1 5)
          VersionNumber := input.getD 5 0
          EventType := beNat (goSlice input 6 8)
          EventModifier := beNat (goSlice input 8 10)
          Seconds := beNat (goSlice input 10 14)
          NanoSeconds := beNat (goSlice input 14 18) }) ∧
    ParseHeaderToken32bit s1Input = .ok
      { TokenID := 0x14, RecordByteCount := 56, VersionNumber := 0x0b,
        EventType := 0xc800, EventModifier := 0x5a,
        Seconds := 2596464128, NanoSeconds := 196904 } :=
  ⟨parseHeader_ok, by rfl⟩

/-- Witness for C1: the general statement applied to the concrete S1 bytes. -/
theorem claimC1_witness :
    ParseHeaderToken32bit s1Input = .ok
      { TokenID := 0x14
        RecordByteCount := beNat (goSlice s1Input 1 5)
        VersionNumber := s1Input.getD 5 0
        EventType := beNat (goSlice s1Input 6 8)
        EventModifier := beNat (goSlice s1Input 8 10)
        Seconds := beNat (goSlice s1Input 10 14)
        NanoSeconds := beNat (goSlice s1Input 14 18) } :=
  claimC1.1 s1Input (by rfl) (by rfl)

/-- C2: the record assembler (modelled from the spec, as `read_record`
is absent from the source) accepts a header/middle/trailer token
sequence exactly when the trailer magic is 0xB105 and the trailer's
record byte count equals the header's; any violation - in particular a
trailer magic of 0x0000 - is the record-level trailer-mismatch error. -/
theorem claimC2 (h : HeaderToken32bit) (mid : List BsmToken) (t : TrailerToken)
    (hmid : ∀ x ∈ mid, ∀ tt, x ≠ BsmToken.trailer tt) :
    (ReadBsmRecord (BsmToken.header32 h :: (mid ++ [BsmToken.trailer t])) =
        .ok ⟨h, mid, t⟩ ↔
      t.TrailerMagic = 0xb105 ∧ t.RecordByteCoount = h.RecordByteCount) ∧
    (¬(t.TrailerMagic = 0xb105 ∧ t.RecordByteCoount = h.RecordByteCount) →
      ReadBsmRecord (BsmToken.header32 h :: (mid ++ [BsmToken.trailer t])) =
        .error .trailerMismatch) ∧
    (t.TrailerMagic = 0 →
      ReadBsmRecord (BsmToken.header32 h :: (mid ++ [BsmToken.trailer t])) =
        .error .trailerMismatch) := by
  have key : ReadBsmRecord (BsmToken.header32 h :: (mid ++ [BsmToken.trailer t])) =
      if t.TrailerMagic = 0xb105 ∧ t.RecordByteCoount = h.RecordByteCount then
        .ok ⟨h, mid, t⟩
      else .error .trailerMismatch := by
    rw [show ReadBsmRecord (BsmToken.header32 h :: (mid ++ [BsmToken.trailer t]))
          = assembleRecord h [] (mid ++ [BsmToken.trailer t]) from rfl]
    rw [assembleRecord_spec h t mid [] hmid]
    simp
  refine ⟨?_, fun hn => by rw [key, if_neg hn], fun h0 => ?_⟩
  · rw [key]
    by_cases hcond : t.TrailerMagic = 0xb105 ∧ t.RecordByteCoount = h.RecordByteCount
    · simp [hcond]
    · simp only [if_neg hcond]
      constructor
      · intro habs
        exact absurd habs (by simp)
      · intro habs
        exact absurd habs hcond
  · rw [key, if_neg]
    rintro ⟨hm, _⟩
    rw [h0] at hm
    exact absurd hm (by norm_num)

/-- Witness for C2: spec scenario S6 - a concrete record whose trailer
magic is 0x0000 raises the trailer-mismatch error. -/
theorem claimC2_witness :
    ReadBsmRecord [BsmToken.header32 ⟨0x14, 56, 0x0b, 51200, 90, 2596464128, 196904⟩,
      BsmToken.other 0x28, BsmToken.trailer ⟨0x13, 0, 56⟩] = .error .trailerMismatch :=
  (claimC2 ⟨0x14, 56, 0x0b, 51200, 90, 2596464128, 196904⟩ [BsmToken.other 0x28]
    ⟨0x13, 0, 56⟩ (by simp)).2.2 rfl

/-- C3 (refuted): the decoder dispatch of `TokenFromByteInput` does not
cover every tag of the data-model table: the repository's own
well-formed trailer token (tag 0x13, magic 0xB105) is answered with the
"new token ID found" error instead of a typed token - only tags 0x14 and
0x2c have decoder arms. -/
theorem claimC3 : TokenFromByteInput trailerBytes = .error (.newTokenID 0x13) := by rfl

/-- C4 (refuted): `determineTokenSize` has no branch for the
address-discriminated tags 0x7b and 0x7d: the repository's own 41-byte
tag-0x7b token with discriminator 4 (and the lone tag 0x7d) are answered
with the unknown-token error, not with a definite size. -/
theorem claimC4 :
    determineTokenSize expProc32Bytes = ⟨0, 0, some (.unknownToken 0x7b)⟩ ∧
    determineTokenSize [0x7d] = ⟨0, 0, some (.unknownToken 0x7d)⟩ :=
  ⟨rfl, rfl⟩

/-- C5 (refuted): when the size oracle asks for two more bytes of the
repository's own text token and the source returns exactly that many,
the read loop of `TokenFromByteInput` fails to decrement `increase`, so
its next iteration slices the three-byte buffer out of bounds: the call
ends in the slice panic instead of iterating to a definite size. -/
theorem claimC5 : TokenFromByteInput textTokenBytes = .error .slicePanic := by
  show TokenFromByteInput ((0x28 : Byte) ::
    [0x00, 0x16, 0x61, 0x75, 0x64, 0x69, 0x74, 0x64, 0x3a, 0x3a,
     0x41, 0x75, 0x64, 0x69, 0x74, 0x20, 0x73, 0x74,
     0x61, 0x72, 0x74, 0x75, 0x70, 0x00]) = .error .slicePanic
  exact tokenFrom_panic _ _ (by rfl) (by decide) (by decide)

/-- C6 (refuted): on the 34-byte tag-0x7a prefix whose byte at offset 33
is 4, `determineTokenSize` returns size 38 (one-byte discriminator плюс
four-byte address), not the 41 the claim states; and the full token does
not decode - `TokenFromByteInput` ends in the read-loop slice panic
before any 0x7a decoder could run. -/
theorem claimC6 :
    determineTokenSize expSubj32Pfx = ⟨38, 0, none⟩ ∧
    TokenFromByteInput expSubj32Tok = .error .slicePanic := by
  refine ⟨by rfl, ?_⟩
  show TokenFromByteInput ((0x7a : Byte) ::
    [0x00, 0x01, 0x02, 0x03, 0x00, 0x01, 0x02, 0x03,
     0x00, 0x01, 0x02, 0x03, 0x00, 0x01, 0x02, 0x03,
     0x00, 0x01, 0x02, 0x03, 0x00, 0x01, 0x02, 0x03,
     0x00, 0x01, 0x02, 0x03, 0x00, 0x01, 0x02, 0x03,
     0x04, 0x00, 0x01, 0x02, 0x03]) = .error .slicePanic
  exact tokenFrom_panic _ _ (by rfl) (by decide) (by decide)

/-- C7 (refuted): `determineTokenSize` has no branch for the socket tags
0x80, 0x81 and 0x82: each lone tag byte is answered with the
unknown-token error instead of the tabulated sizes 9, 21 and 9. -/
theorem claimC7 :
    determineTokenSize [0x80] = ⟨0, 0, some (.unknownToken 0x80)⟩ ∧
    determineTokenSize [0x81] = ⟨0, 0, some (.unknownToken 0x81)⟩ ∧
    determineTokenSize [0x82] = ⟨0, 0, some (.unknownToken 0x82)⟩ :=
  ⟨rfl, rfl, rfl⟩

/-- C8: `bytesToUint32` returns the big-endian value of every input of
at most four bytes, returns the overflow error on every longer input,
and returns `n` on the four-byte big-endian encoding of every
`n < 2^32`. -/
theorem claimC8 :
    (∀ input : List Byte,
      (input.length ≤ 4 → bytesToUint32 input = .ok (beNat input)) ∧
      (4 < input.length → bytesToUint32 input = .error .overflow32)) ∧
    (∀ n : Nat, n < 4294967296 → bytesToUint32 (uint32BE n) = .ok n) := by
  refine ⟨fun input => ⟨fun h => u32ok input h, fun h => ?_⟩, fun n hn => ?_⟩
  · rw [bytesToUint32, if_pos h]
  · rw [u32ok (uint32BE n) (by rfl), beNat_uint32BE n hn]

/-- Witness for C8: the repository's own test vectors - 65536 decodes
from its encoding, a five-byte input overflows, and 2^32 - 1 round-trips. -/
theorem claimC8_witness :
    bytesToUint32 [0x00, 0x01, 0x00, 0x00] = .ok 65536 ∧
    bytesToUint32 [0xff, 0x01, 0xac, 0xb4, 0x2c] = .error .overflow32 ∧
    bytesToUint32 (uint32BE 4294967295) = .ok 4294967295 := by
  refine ⟨?_, (claimC8.1 _).2 (by decide), claimC8.2 4294967295 (by norm_num)⟩
  have h := (claimC8.1 [0x00, 0x01, 0x00, 0x00]).1 (by decide)
  rw [h]
  rfl

/-- C9: for the counted-array tags 0x25, 0x3c and 0x3d, whenever the
supplied bytes contain at least Count NUL bytes after the count field,
`determineTokenSize` returns the length of the entire supplied input as
the size; hence appending extra bytes after the Count-th NUL yields a
size strictly larger than the token's own length. -/
theorem claimC9 :
    (∀ input : List Byte, input.getD 0 0 = 0x25 → 3 ≤ input.length →
      beNat (goSlice input 1 3) ≤ (input.drop 3).count 0 →
      determineTokenSize input = ⟨input.length, 0, none⟩) ∧
    (∀ input : List Byte, input.getD 0 0 = 0x3c → 5 ≤ input.length →
      beNat (goSlice input 1 5) ≤ (input.drop 5).count 0 →
      determineTokenSize input = ⟨input.length, 0, none⟩) ∧
    (∀ input : List Byte, input.getD 0 0 = 0x3d → 5 ≤ input.length →
      beNat (goSlice input 1 5) ≤ (input.drop 5).count 0 →
      determineTokenSize input = ⟨input.length, 0, none⟩) ∧
    (∃ t extra : List Byte, extra ≠ [] ∧
      determineTokenSize t = ⟨t.length, 0, none⟩ ∧
      determineTokenSize (t ++ extra) = ⟨(t ++ extra).length, 0, none⟩ ∧
      t.length < (t ++ extra).length) := by
  refine ⟨?_, ?_, ?_, ⟨[0x25, 0x00, 0x01, 0x41, 0x00], [0x42], by simp, by rfl, by rfl, by simp⟩⟩
  · intro input hhd hlen hcount
    rw [List.getD_eq_getElem?_getD] at hhd
    have hc : bytesToUint16 (goSlice input 1 3) = .ok (beNat (goSlice input 1 3)) :=
      u16ok _ (by rw [goSlice_length]; omega)
    have hne : ¬(input.length = 0) := by omega
    have hlt : ¬(input.length < 3) := by omega
    have hcnt : ¬((input.drop 3).count 0 < beNat (goSlice input 1 3)) := by omega
    simp [determineTokenSize, hhd, hne, hlt, hc, hcnt]
  · intro input hhd hlen hcount
    rw [List.getD_eq_getElem?_getD] at hhd
    have hc : bytesToUint32 (goSlice input 1 5) = .ok (beNat (goSlice input 1 5)) :=
      u32ok _ (by rw [goSlice_length]; omega)
    have hne : ¬(input.length = 0) := by omega
    have hlt : ¬(input.length < 5) := by omega
    have hcnt : ¬((input.drop 5).count 0 < beNat (goSlice input 1 5)) := by omega
    simp [determineTokenSize, hhd, hne, hlt, hc, hcnt]
  · intro input hhd hlen hcount
    rw [List.getD_eq_getElem?_getD] at hhd
    have hc : bytesToUint32 (goSlice input 1 5) = .ok (beNat (goSlice input 1 5)) :=
      u32ok _ (by rw [goSlice_length]; omega)
    have hne : ¬(input.length = 0) := by omega
    have hlt : ¬(input.length < 5) := by omega
    have hcnt : ¬((input.drop 5).count 0 < beNat (goSlice input 1 5)) := by omega
    simp [determineTokenSize, hhd, hne, hlt, hc, hcnt]

/-- Witness for C9: a concrete one-string path-attr token sized to its
own five bytes. -/
theorem claimC9_witness :
    determineTokenSize [0x25, 0x00, 0x01, 0x41, 0x00] = ⟨5, 0, none⟩ :=
  claimC9.1 [0x25, 0x00, 0x01, 0x41, 0x00] (by rfl) (by decide) (by decide)

/-- C10: `ParseHeaderToken32bit` returns an error exactly when its input
is not 18 bytes long or does not start with 0x14; under the precondition
it always succeeds, the helper error branches being unreachable. -/
theorem claimC10 (input : List Byte) :
    (∃ e, ParseHeaderToken32bit input = .error e) ↔
      ¬(input.length = 18 ∧ input.getD 0 0 = 0x14) := by
  constructor
  · rintro ⟨e, he⟩ ⟨hlen, hhd⟩
    rw [parseHeader_ok input hlen hhd] at he
    exact absurd he (by simp)
  · intro hn
    by_cases hlen : input.length = 18
    · have hhd : input.getD 0 0 ≠ 0x14 := fun hh => hn ⟨hlen, hh⟩
      have hh2 : ¬(input.get ⟨0, by omega⟩ = (0x14 : Byte)) := by
        rw [List.getD_eq_getElem _ _ (by omega)] at hhd
        exact hhd
      simp only [List.get_eq_getElem] at hh2
      exact ⟨.tokenIDMismatch, by simp [ParseHeaderToken32bit, hlen, hh2]⟩
    · exact ⟨.invalidHeaderLength, by simp [ParseHeaderToken32bit, hlen]⟩
